import Mathlib

/-!
Verification of the coredns-redis plugin core (redis.go and the per-type
row-layout variant). Strings are modelled as lists of characters (Go byte
strings; all inputs of interest are ASCII). Backend interaction (redigo
connections, HGET/SCAN/GET/TTL/SET replies) is modelled by passing the
backend's reply, or a reply oracle, as an explicit argument.
-/

/-- Go strings modelled as character lists. -/
abbrev Str := List Char

/-- Convenience conversion from Lean string literals. -/
def str (s : String) : Str := s.data

/-- strings.HasSuffix. -/
def strEndsWith (s suf : Str) : Bool :=
  suf.length ≤ s.length && s.drop (s.length - suf.length) == suf

/-- strings.HasPrefix. -/
def strStartsWith (s pre : Str) : Bool :=
  s.take pre.length == pre

/-- strings.TrimSuffix. -/
def trimSuffix (s suf : Str) : Str :=
  if strEndsWith s suf then s.take (s.length - suf.length) else s

/-- strings.TrimPrefix (trims a leading occurrence of the second argument). -/
def trimPref (s pre : Str) : Str :=
  if strStartsWith s pre then s.drop pre.length else s

/-- dns.IsFqdn: the name ends in a dot (escaping is not modelled; no claim
involves escaped dots). -/
def isFqdnGo (s : Str) : Bool :=
  match s.getLast? with
  | some '.' => true
  | _ => false

/-- dns.Fqdn: append a trailing dot unless already fully qualified. -/
def fqdn (s : Str) : Str :=
  if isFqdnGo s then s else s ++ ['.']

/-- The DNS record kinds handled by the plugin. -/
inductive RKind where
  | a | aaaa | cname | txt | ns | mx | srv | soa | caa
deriving DecidableEq

/-- A synthesized DNS resource record (dns.RR): constructor per type, with
the header name and header TTL inlined, followed by the type-specific data. -/
inductive RR where
  | a (name : Str) (ttl : Nat) (ip : Str)
  | aaaa (name : Str) (ttl : Nat) (ip : Str)
  | cname (name : Str) (ttl : Nat) (target : Str)
  | txt (name : Str) (ttl : Nat) (chunks : List Str)
  | ns (name : Str) (ttl : Nat) (host : Str)
  | mx (name : Str) (ttl : Nat) (host : Str) (pref : Nat)
  | srv (name : Str) (ttl : Nat) (target : Str) (weight port priority : Nat)
  | soa (name : Str) (ttl : Nat) (nsname mbox : Str)
        (serial refresh retry expire minttl : Nat)
  | caa (name : Str) (ttl : Nat) (flag : Nat) (tag value : Str)
deriving DecidableEq, Inhabited

/-- The header TTL of a record (rr.Header().Ttl). -/
def RR.hdrTtl : RR → Nat
  | .a _ t _ => t
  | .aaaa _ t _ => t
  | .cname _ t _ => t
  | .txt _ t _ => t
  | .ns _ t _ => t
  | .mx _ t _ _ => t
  | .srv _ t _ _ _ _ => t
  | .soa _ t _ _ _ _ _ _ _ => t
  | .caa _ t _ _ _ => t

/-- The record kind of a resource record. -/
def RR.kind : RR → RKind
  | .a _ _ _ => .a
  | .aaaa _ _ _ => .aaaa
  | .cname _ _ _ => .cname
  | .txt _ _ _ => .txt
  | .ns _ _ _ => .ns
  | .mx _ _ _ _ => .mx
  | .srv _ _ _ _ _ _ => .srv
  | .soa _ _ _ _ _ _ _ _ _ => .soa
  | .caa _ _ _ _ _ => .caa

/-- Overwrite the header TTL of a record (answer.Header().Ttl = t). -/
def RR.setHdrTtl (t : Nat) : RR → RR
  | .a n _ ip => .a n t ip
  | .aaaa n _ ip => .aaaa n t ip
  | .cname n _ tg => .cname n t tg
  | .txt n _ ch => .txt n t ch
  | .ns n _ h => .ns n t h
  | .mx n _ h p => .mx n t h p
  | .srv n _ tg w po pr => .srv n t tg w po pr
  | .soa n _ nsn mb se re rt ex mi => .soa n t nsn mb se re rt ex mi
  | .caa n _ f tg v => .caa n t f tg v

/-- Go uint32 conversion of a (possibly negative) integer. -/
def uint32ofInt (i : Int) : Nat := (i % (4294967296 : Int)).toNat

namespace Agg

/-! Embedding of src/redis.go: the aggregated-JSON-per-label layout. -/

/-- A zone: its (fully qualified) name and the set of known labels
(Go: map[string]struct of empty, modelled as a list; the map's iteration
order is unspecified in Go, so theorems must not depend on list order
beyond what the code guarantees). -/
structure Zone where
  name : Str
  locations : List Str
deriving DecidableEq

/-- A_Record / AAAA_Record entry: Ip is nil-able. -/
structure ARec where
  ip : Option Str
  ttl : Nat
deriving DecidableEq

/-- CNAME_Record / NS_Record entry: Host and Ttl. -/
structure HostRec where
  host : Str
  ttl : Nat
deriving DecidableEq

/-- TXT_Record entry. -/
structure TxtRec where
  text : Str
  ttl : Nat
deriving DecidableEq

/-- MX_Record entry. -/
structure MXRec where
  host : Str
  preference : Nat
  ttl : Nat
deriving DecidableEq

/-- SRV_Record entry. -/
structure SRVRec where
  target : Str
  weight : Nat
  port : Nat
  priority : Nat
  ttl : Nat
deriving DecidableEq

/-- CAA_Record entry. -/
structure CAARec where
  flag : Nat
  tag : Str
  value : Str
deriving DecidableEq

/-- SOA_Record: zero value has empty ns (the placeholder trigger). -/
structure SOARec where
  ns : Str
  mbox : Str
  refresh : Nat
  retry : Nat
  expire : Nat
  minTtl : Nat
  ttl : Nat
deriving DecidableEq

/-- Modelled from the spec: the aggregated Record structure (its Go struct
declaration file is not under src/; the field set is as in spec section 3
and exactly as consumed by src/redis.go). -/
structure Record where
  A : List ARec
  AAAA : List ARec
  CNAME : List HostRec
  TXT : List TxtRec
  NS : List HostRec
  MX : List MXRec
  SRV : List SRVRec
  CAA : List CAARec
  SOA : SOARec
deriving DecidableEq

/-- The Redis plugin state fields the core logic reads: the configured zone
TTL ceiling, key decoration, and the current Unix time (time.Now().Unix(),
passed in explicitly since wall-clock time is an input here). -/
structure Redis where
  ttl : Nat
  keyPref : Str
  keySuf : Str
  nowUnix : Nat
deriving DecidableEq

/-- The defaultTtl constant. -/
def defaultTtl : Nat := 360

/-- serial(): uint32(time.Now().Unix()). -/
def serial (r : Redis) : Nat := r.nowUnix % 4294967296

/-- minTtl: resolve the record TTL against the zone ceiling. -/
def minTtl (r : Redis) (ttl : Nat) : Nat :=
  if r.ttl = 0 ∧ ttl = 0 then defaultTtl
  else if r.ttl = 0 then ttl
  else if ttl = 0 then r.ttl
  else if r.ttl < ttl then r.ttl
  else ttl

/-- The slicing loop of split255: chunks s[p:p+255] while they fit, then the
remainder s[p:]. The Go loop advances p by 255 each iteration; it is given
here with structural fuel (any fuel with s.length at most p + 255 * fuel
runs the loop to completion, and split255 below supplies such a fuel). -/
def split255Loop (s : Str) : Nat → Nat → List Str
  | 0, p => [s.drop p]
  | fuel + 1, p =>
    if p + 255 ≤ s.length then
      (s.drop p).take 255 :: split255Loop s fuel (p + 255)
    else
      [s.drop p]

/-- split255: TXT character-string chunking. -/
def split255 (s : Str) : List Str :=
  if s.length < 255 then [s] else split255Loop s s.length 0

/-- keyExists: verbatim membership in the zone's locations. -/
def keyExists (key : Str) (z : Zone) : Bool :=
  z.locations.contains key

/-- keyMatches: some existing location has key as a trailing substring. -/
def keyMatches (key : Str) (z : Zone) : Bool :=
  z.locations.any (fun value => strEndsWith value key)

/-- The part of a name after its first dot, if any (the core of
strings.SplitAfterN(query, dot, 2)). -/
def afterFirstDot : Str → Option Str
  | [] => none
  | c :: rest => if c = '.' then some rest else afterFirstDot rest

/-- splitQuery: split off the leading label, returning the closest encloser
and the source of synthesis, or none for the empty query. -/
def splitQuery (query : Str) : Option (Str × Str) :=
  match query with
  | [] => none
  | c :: rest =>
    match afterFirstDot (c :: rest) with
    | some ce => some (ce, '*' :: '.' :: ce)
    | none => some ([], ['*'])

/-- The closest-encloser search loop of findLocation, on state
(closestEncloser, sourceOfSynthesis). The Go loop terminates because
splitQuery strictly shortens the closest encloser (splitQuery_lt); it is
given here with structural fuel, and findLocation supplies fuel exceeding
the initial encloser's length, so the zero-fuel arm is never reached. -/
def wildcardLookup (z : Zone) : Nat → Str → Str → Str
  | 0, _, _ => []
  | fuel + 1, ce, ss =>
    if keyMatches ce z || keyExists ce z then
      if keyExists ss z then ss else []
    else
      match splitQuery ce with
      | none => []
      | some p => wildcardLookup z fuel p.1 p.2

/-- findLocation: map a query name to the zone label answering it. -/
def findLocation (query : Str) (z : Zone) : Str :=
  if query = z.name then query
  else
    let q := trimSuffix query ('.' :: z.name)
    if keyExists q z then q
    else
      match splitQuery q with
      | none => []
      | some p => wildcardLookup z (q.length + 1) p.1 p.2

/-- The hash-field label used by get: a key equal to the zone name reads the
apex field. -/
def getLabel (key : Str) (z : Zone) : Str :=
  if key = z.name then ['@'] else key

/-- The possible outcomes of the backend interaction inside get: no pooled
connection, an HGET command error, a nil reply (field absent, which redigo
reports as an ErrNil string conversion), or the field's payload. -/
inductive GetOutcome where
  | noConn
  | cmdError
  | absent
  | value (s : Str)
deriving DecidableEq

/-- get: read and JSON-decode one label's Record. The backend reply is an
oracle over the hash field consulted, and the JSON decoder (json.Unmarshal,
external) is a parameter returning none on malformed payloads. Every
failure path in the source returns nil after at most logging. -/
def get (z : Zone) (backend : Str → GetOutcome) (dec : Str → Option Record)
    (key : Str) : Option Record :=
  match backend (getLabel key z) with
  | .noConn => none
  | .cmdError => none
  | .absent => none
  | .value s => dec s

/-- The possible outcomes of the backend interaction inside save. -/
inductive SaveOutcome where
  | noConn
  | cmdError
  | done
deriving DecidableEq

/-- save: the Go error value returned to the caller (none is a nil error).
With no connection the source logs and returns nil; otherwise it returns
the HSET command's error. -/
def save (outcome : SaveOutcome) : Option Unit :=
  match outcome with
  | .noConn => none
  | .cmdError => some ()
  | .done => none

/-- A: one answer per A entry with a non-nil address. -/
def A (r : Redis) (name : Str) (z : Zone) (record : Option Record) :
    List RR × List RR :=
  match record with
  | none => ([], [])
  | some rec =>
    (rec.A.filterMap fun a =>
      match a.ip with
      | none => none
      | some ip => some (RR.a (fqdn name) (minTtl r a.ttl) ip), [])

/-- AAAA: one answer per AAAA entry with a non-nil address. -/
def AAAA (r : Redis) (name : Str) (z : Zone) (record : Option Record) :
    List RR × List RR :=
  match record with
  | none => ([], [])
  | some rec =>
    (rec.AAAA.filterMap fun a =>
      match a.ip with
      | none => none
      | some ip => some (RR.aaaa (fqdn name) (minTtl r a.ttl) ip), [])

/-- CNAME: one answer per entry with a non-empty host. -/
def CNAME (r : Redis) (name : Str) (z : Zone) (record : Option Record) :
    List RR × List RR :=
  match record with
  | none => ([], [])
  | some rec =>
    (rec.CNAME.filterMap fun c =>
      if c.host.length = 0 then none
      else some (RR.cname (fqdn name) (minTtl r c.ttl) (fqdn c.host)), [])

/-- TXT: one answer per entry with non-empty text, chunked by split255. -/
def TXT (r : Redis) (name : Str) (z : Zone) (record : Option Record) :
    List RR × List RR :=
  match record with
  | none => ([], [])
  | some rec =>
    (rec.TXT.filterMap fun t =>
      if t.text.length = 0 then none
      else some (RR.txt (fqdn name) (minTtl r t.ttl) (split255 t.text)), [])

/-- hosts: resolve a referenced host inside the zone and synthesize its
A, AAAA and CNAME answers as glue. fetch is the record fetcher (get with
its backend and decoder fixed). -/
def hosts (r : Redis) (fetch : Str → Option Record) (name : Str) (z : Zone) :
    List RR :=
  let location := findLocation name z
  if location = [] then []
  else
    let record := fetch location
    (A r name z record).1 ++ (AAAA r name z record).1 ++ (CNAME r name z record).1

/-- The body of the NS loop: skip empty hosts, else append the answer and
the host's glue records. -/
def nsStep (r : Redis) (fetch : Str → Option Record) (name : Str) (z : Zone)
    (acc : List RR × List RR) (n : HostRec) : List RR × List RR :=
  if n.host.length = 0 then acc
  else (acc.1 ++ [RR.ns (fqdn name) (minTtl r n.ttl) n.host],
        acc.2 ++ hosts r fetch n.host z)

/-- NS: one answer per entry with a non-empty host, plus glue extras. -/
def NS (r : Redis) (fetch : Str → Option Record) (name : Str) (z : Zone)
    (record : Option Record) : List RR × List RR :=
  match record with
  | none => ([], [])
  | some rec => rec.NS.foldl (nsStep r fetch name z) ([], [])

/-- The body of the MX loop. -/
def mxStep (r : Redis) (fetch : Str → Option Record) (name : Str) (z : Zone)
    (acc : List RR × List RR) (m : MXRec) : List RR × List RR :=
  if m.host.length = 0 then acc
  else (acc.1 ++ [RR.mx (fqdn name) (minTtl r m.ttl) m.host m.preference],
        acc.2 ++ hosts r fetch m.host z)

/-- MX: one answer per entry with a non-empty host, plus glue extras. -/
def MX (r : Redis) (fetch : Str → Option Record) (name : Str) (z : Zone)
    (record : Option Record) : List RR × List RR :=
  match record with
  | none => ([], [])
  | some rec => rec.MX.foldl (mxStep r fetch name z) ([], [])

/-- The body of the SRV loop. -/
def srvStep (r : Redis) (fetch : Str → Option Record) (name : Str) (z : Zone)
    (acc : List RR × List RR) (s : SRVRec) : List RR × List RR :=
  if s.target.length = 0 then acc
  else (acc.1 ++ [RR.srv (fqdn name) (minTtl r s.ttl) s.target
                    s.weight s.port s.priority],
        acc.2 ++ hosts r fetch s.target z)

/-- SRV: one answer per entry with a non-empty target, plus glue extras. -/
def SRV (r : Redis) (fetch : Str → Option Record) (name : Str) (z : Zone)
    (record : Option Record) : List RR × List RR :=
  match record with
  | none => ([], [])
  | some rec => rec.SRV.foldl (srvStep r fetch name z) ([], [])

/-- SOA: placeholder record when no SOA data is stored (header TTL is the
raw zone TTL), otherwise the stored SOA with minTtl-resolved TTL; the
serial is always the current Unix time. -/
def SOA (r : Redis) (name : Str) (z : Zone) (record : Option Record) :
    List RR × List RR :=
  match record with
  | none => ([], [])
  | some rec =>
    if rec.SOA.ns = [] then
      ([RR.soa (fqdn name) r.ttl (str "ns1." ++ name) (str "hostmaster." ++ name)
          (serial r) 86400 7200 3600 r.ttl], [])
    else
      ([RR.soa (fqdn z.name) (minTtl r rec.SOA.ttl) rec.SOA.ns rec.SOA.mbox
          (serial r) rec.SOA.refresh rec.SOA.retry rec.SOA.expire rec.SOA.minTtl], [])

/-- CAA: one answer per entry with non-empty tag and value. The source
populates the header without a TTL field, so the header TTL is the Go zero
value. -/
def CAA (r : Redis) (name : Str) (z : Zone) (record : Option Record) :
    List RR × List RR :=
  match record with
  | none => ([], [])
  | some rec =>
    (rec.CAA.filterMap fun c =>
      if c.value = [] ∨ c.tag = [] then none
      else some (RR.caa (fqdn name) 0 c.flag c.tag c.value), [])

/-- One step of the AXFR location loop, on the accumulator
(soa, answers, extras). The apex key replaces the soa slice; any other key
appends that location's A, AAAA, CNAME, MX, SRV and TXT answers and extras. -/
def axfrStep (r : Redis) (fetch : Str → Option Record) (z : Zone)
    (acc : List RR × List RR × List RR) (key : Str) :
    List RR × List RR × List RR :=
  if key = ['@'] then
    let record := fetch (findLocation z.name z)
    ((SOA r z.name z record).1, acc.2.1, acc.2.2)
  else
    let fq := fqdn key ++ z.name
    let record := fetch (findLocation fq z)
    let ra := A r fq z record
    let raaaa := AAAA r fq z record
    let rcname := CNAME r fq z record
    let rmx := MX r fetch fq z record
    let rsrv := SRV r fetch fq z record
    let rtxt := TXT r fq z record
    (acc.1,
     acc.2.1 ++ ra.1 ++ raaaa.1 ++ rcname.1 ++ rmx.1 ++ rsrv.1 ++ rtxt.1,
     acc.2.2 ++ ra.2 ++ raaaa.2 ++ rcname.2 ++ rmx.2 ++ rsrv.2 ++ rtxt.2)

/-- The AXFR loop over all locations of the zone. -/
def axfrFold (r : Redis) (fetch : Str → Option Record) (z : Zone) :
    List RR × List RR × List RR :=
  z.locations.foldl (axfrStep r fetch z) ([], [], [])

/-- AXFR: full zone dump, assembled as soa ++ answers ++ extras ++ soa. -/
def AXFR (r : Redis) (fetch : Str → Option Record) (z : Zone) : List RR :=
  let t := axfrFold r fetch z
  t.1 ++ t.2.1 ++ t.2.2 ++ t.1

/-- One key of the LoadZones scan: the dedup map is consulted with the raw
key, while the stripped name is what gets recorded, exactly as in the
source (including its use of TrimPrefix on the suffix). -/
def loadZonesStep (keyPref keySuf : Str) (acc : List Str × List Str)
    (key : Str) : List Str × List Str :=
  if acc.2.contains key then acc
  else
    let zone := trimPref (trimPref key keyPref) keySuf
    (acc.1 ++ [zone], acc.2 ++ [zone])

/-- LoadZones: accumulate the zone list over the SCAN reply pages (the
cursor loop consumes one reply per page until the backend reports cursor
zero; the pages argument is that sequence of key batches). -/
def LoadZones (keyPref keySuf : Str) (pages : List (List Str)) : List Str :=
  (pages.foldl (fun acc page => page.foldl (loadZonesStep keyPref keySuf) acc)
    ([], [])).1

end Agg

namespace Rows

/-! Embedding of the per-type row layout variant (src/unnamed/part_000,
first file: the variant whose record parsers take no separate zone-name
argument). -/

/-- The plugin state consumed by the row-layout loading path. -/
structure Redis where
  keyPref : Str
deriving DecidableEq

/-- Key: decorate a backend key with the configured key prefix. -/
def Redis.Key (r : Redis) (zoneName : Str) : Str :=
  r.keyPref ++ zoneName

/-- The error classes produced by the row-layout loading path (Go error
values, classified by the site that creates them). -/
inductive PErr where
  | noRData
  | malformedRow
  | typeMismatch
  | atoiErr
  | unsupportedType
  | notFqdn
  | glueExtras
deriving DecidableEq

/-- The result of a row-layout operation: a normal value, a returned Go
error, or a runtime panic (out-of-range slice indexing). -/
inductive Outcome (α : Type) where
  | ok (a : α)
  | err (e : PErr)
  | panicked
deriving DecidableEq

/-- Sequencing of row-layout steps: errors and panics short-circuit. -/
def Outcome.bind {α β : Type} : Outcome α → (α → Outcome β) → Outcome β
  | .ok a, f => f a
  | .err e, _ => .err e
  | .panicked, _ => .panicked

/-- Go unicode.IsSpace restricted to the ASCII whitespace bytes. -/
def isSpaceGo (c : Char) : Bool :=
  c = ' ' || c = '\t' || c = '\n' || c = '\r' || c = '\x0b' || c = '\x0c'

/-- Accumulating scanner behind stringsFields. -/
def fieldsAux : Str → Str → List Str
  | [], cur => if cur = [] then [] else [cur.reverse]
  | c :: rest, cur =>
    if isSpaceGo c then
      if cur = [] then fieldsAux rest []
      else cur.reverse :: fieldsAux rest []
    else fieldsAux rest (c :: cur)

/-- strings.Fields: split around runs of whitespace. -/
def stringsFields (s : Str) : List Str :=
  fieldsAux s []

/-- Digit-string value, none on an empty string or a non-digit. -/
def digitsVal (s : Str) : Option Nat :=
  if s = [] then none
  else
    s.foldl
      (fun acc c =>
        match acc with
        | none => none
        | some n => if c.isDigit then some (n * 10 + (c.toNat - 48)) else none)
      (some 0)

/-- strconv.Atoi: optional sign then digits (the int64 range check is not
modelled; no claim involves out-of-range literals). -/
def atoi : Str → Option Int
  | [] => none
  | '+' :: rest => (digitsVal rest).map Int.ofNat
  | '-' :: rest => (digitsVal rest).map (fun n => -(n : Int))
  | s => (digitsVal s).map Int.ofNat

/-- Index into the positional field slice: a missing index is a Go panic,
a present field that fails Atoi is a returned error. -/
def atoiAt (fields : List Str) (i : Nat) : Outcome Int :=
  match fields.get? i with
  | none => .panicked
  | some s =>
    match atoi s with
    | none => .err .atoiErr
    | some x => .ok x

/-- parseA: one A record per address field (net.ParseIP is not modelled;
the record keeps the textual address, which no claim inspects). -/
def parseA (ips : List Str) (recordName : Str) (ttl : Nat) : List RR :=
  ips.map fun ip => RR.a recordName ttl ip

/-- parseNS: one NS record per fully-qualified host, each with glue records
from the recursive A lookup (the glue argument). -/
def parseNS (glue : Str → Outcome (List RR)) (hosts : List Str)
    (zoneName : Str) (ttl : Nat) : Outcome (List RR × List RR) :=
  match hosts with
  | [] => .ok ([], [])
  | h :: rest =>
    if isFqdnGo h = false then .err .notFqdn
    else
      (glue h).bind fun additional =>
      (parseNS glue rest zoneName ttl).bind fun acc =>
      .ok (RR.ns zoneName ttl h :: acc.1, additional ++ acc.2)

/-- parseSOA: positional fields ns, mbox, serial, refresh, retry, expire,
minttl, indexed without a bounds check; glue records come from resolving
the nameserver. -/
def parseSOA (glue : Str → Outcome (List RR)) (fields : List Str)
    (zoneName : Str) (ttl : Nat) : Outcome (List RR × List RR) :=
  match fields.get? 0, fields.get? 1 with
  | some nsname, some mbox0 =>
    let mbox := if isFqdnGo mbox0 then mbox0 else mbox0 ++ '.' :: zoneName
    (atoiAt fields 2).bind fun serial =>
    (atoiAt fields 3).bind fun refresh =>
    (atoiAt fields 4).bind fun retry =>
    (atoiAt fields 5).bind fun expire =>
    (atoiAt fields 6).bind fun minttl =>
    (glue nsname).bind fun additional =>
    .ok ([RR.soa zoneName ttl nsname mbox (uint32ofInt serial)
            (uint32ofInt refresh) (uint32ofInt retry) (uint32ofInt expire)
            (uint32ofInt minttl)],
         additional)
  | _, _ => .panicked

/-- parseRecordValuesFromString: whitespace-split the stored row, check the
arity guard, the type tag and the TTL literal, then dispatch per type. -/
def parseRecordValuesFromString (glue : Str → Outcome (List RR))
    (recordType recordName rData : Str) : Outcome (List RR × List RR) :=
  let fields := stringsFields rData
  if fields.length < 4 then .err .malformedRow
  else if fields.getD 2 [] ≠ recordType then .err .typeMismatch
  else
    match atoi (fields.getD 0 []) with
    | none => .err .atoiErr
    | some ttlInt =>
      let ttl := uint32ofInt ttlInt
      if recordType = str "A" then
        .ok (parseA (fields.drop 3) recordName ttl, [])
      else if recordType = str "NS" then
        parseNS glue (fields.drop 3) recordName ttl
      else if recordType = str "SOA" then
        parseSOA glue (fields.drop 3) recordName ttl
      else .err .unsupportedType

/-- The body of LoadZoneRecords, with the recursive glue lookup abstracted
as an argument. The backend state is the pair of oracles rows (GET: the
stored row text, empty when the key is absent) and ttls (TTL: remaining
seconds, -2 for a missing key); the MULTI/EXEC transaction reads both. The
result carries the answers, the extras, and the TTL-key write performed by
the decay logic, if any, as its (value, expiry) pair. -/
def loadCore (glue : Str → Outcome (List RR)) (r : Redis)
    (rows : Str → Str) (ttls : Str → Int) (recordType recordName : Str) :
    Outcome (List RR × List RR × Option (Nat × Nat)) :=
  let keyName := recordType ++ '/' :: recordName
  let ttlKeyName := keyName ++ str ":ttl"
  let rData := rows (r.Key keyName)
  let remainingTtl := ttls (r.Key ttlKeyName)
  if rData = [] then .err .noRData
  else
    (parseRecordValuesFromString glue recordType recordName rData).bind
      fun res =>
        if remainingTtl = -2 then
          match res.1 with
          | [] => .panicked
          | a0 :: _ => .ok (res.1, res.2, some (a0.hdrTtl, a0.hdrTtl))
        else
          .ok (res.1.map (RR.setHdrTtl (uint32ofInt remainingTtl)), res.2, none)

/-- getAdditionalRecords: load the referenced name's A RRset and reject
unexpected extras; any error from the inner load propagates. The inner
load parses type A, whose branch of parseRecordValuesFromString never
consults the glue argument (glue_irrelevant_for_A below), so instantiating
it with a stub is exact; the inner call's own TTL-key write is not
tracked. -/
def getAdditionalRecords (r : Redis) (rows : Str → Str) (ttls : Str → Int)
    (recordName : Str) : Outcome (List RR) :=
  match loadCore (fun _ => .ok []) r rows ttls (str "A") recordName with
  | .ok res => if 0 < res.2.1.length then .err .glueExtras else .ok res.1
  | .err e => .err e
  | .panicked => .panicked

/-- LoadZoneRecords: load and synthesize one RRset, with decaying-TTL
bookkeeping. -/
def LoadZoneRecords (r : Redis) (rows : Str → Str) (ttls : Str → Int)
    (recordType recordName : Str) :
    Outcome (List RR × List RR × Option (Nat × Nat)) :=
  loadCore (getAdditionalRecords r rows ttls) r rows ttls recordType recordName

end Rows

/-! Concrete fixtures used by witnesses and counterexamples. -/

/-- A record with no entries at all. -/
def recEmpty : Agg.Record :=
  ⟨[], [], [], [], [], [], [], [], ⟨[], [], 0, 0, 0, 0, 0⟩⟩

/-- Zone for the C1 no-wildcard case. -/
def zC1a : Agg.Zone := ⟨str "example.com.", [str "a.b"]⟩

/-- Zone for the C1 wildcard case. -/
def zC1b : Agg.Zone := ⟨str "example.com.", [str "a.b", str "*.a.b"]⟩

/-- Zone for the C2 apex lookup. -/
def zC2 : Agg.Zone := ⟨str "example.com.", [str "a.b"]⟩

/-- Scan pages for C6: the same backend key on two pages. -/
def c6pages : List (List Str) := [[str "p:z:s"], [str "p:z:s"], []]

/-- Zone for C8. -/
def zC8 : Agg.Zone := ⟨str "ex.", []⟩

/-- Plugin state for C9: no zone TTL ceiling configured. -/
def rC9 : Agg.Redis := ⟨0, [], [], 0⟩

/-- Zone for C9. -/
def zC9 : Agg.Zone := ⟨str "ex.", []⟩

/-- Record for C9 holding one well-formed CAA entry. -/
def recC9 : Agg.Record :=
  { recEmpty with CAA := [⟨0, str "issue", str "ca.example"⟩] }

/-- Record for the C9 witness: one A entry, one CAA entry and custom SOA
data. -/
def recC9w : Agg.Record :=
  { recEmpty with
      A := [⟨some (str "1.2.3.4"), 5⟩],
      CAA := [⟨0, str "issue", str "ca.example"⟩],
      SOA := ⟨str "ns1.ex.", str "hm.ex.", 1, 2, 3, 4, 7⟩ }

/-- Plugin state for C7 (zone TTL unset, fixed clock). -/
def rC7 : Agg.Redis := ⟨0, [], [], 1000⟩

/-- Zone for C7: the apex and one subdomain location. -/
def zC7 : Agg.Zone := ⟨str "z.", [str "@", str "w"]⟩

/-- Apex record for C7: custom SOA data. -/
def recC7apex : Agg.Record :=
  { recEmpty with SOA := ⟨str "ns1.z.", str "hm.z.", 1, 2, 3, 4, 77⟩ }

/-- Subdomain record for C7: NS and CAA entries only. -/
def recC7w : Agg.Record :=
  { recEmpty with
      NS := [⟨str "ns1.z.", 100⟩],
      CAA := [⟨0, str "issue", str "ca"⟩] }

/-- Record fetcher for C7. -/
def fetchC7 : Str → Option Agg.Record := fun k =>
  if k = str "z." then some recC7apex
  else if k = str "w" then some recC7w
  else none

/-- Row store for C3: one A row, no other keys. -/
def rowsC3 : Str → Str := fun k =>
  if k = str "A/w" then str "300 IN A 1.2.3.4" else []

/-! Helper lemmas. -/

theorem Agg.afterFirstDot_lt : ∀ {q r : Str}, Agg.afterFirstDot q = some r → r.length < q.length := by
  intro q
  induction q with
  | nil => intro r h; simp [Agg.afterFirstDot] at h
  | cons c rest ih =>
    intro r h
    by_cases hc : c = '.'
    · simp [Agg.afterFirstDot, hc] at h
      simp [← h]
    · simp only [Agg.afterFirstDot, hc, if_false] at h
      exact Nat.lt_trans (ih h) (by simp)

/-- splitQuery strictly shortens the closest encloser: the Go search loop
terminates, and the fuel supplied by findLocation is never exhausted. -/
theorem Agg.splitQuery_lt : ∀ {q ce ss : Str}, Agg.splitQuery q = some (ce, ss) → ce.length < q.length := by
  intro q ce ss h
  match q with
  | [] => simp [Agg.splitQuery] at h
  | c :: rest =>
    simp only [Agg.splitQuery] at h
    cases hd : Agg.afterFirstDot (c :: rest) with
    | some ce' =>
      rw [hd] at h
      cases h
      exact Agg.afterFirstDot_lt hd
    | none =>
      rw [hd] at h
      cases h
      simp

/-! Claim theorems. -/

/-- C5: minTtl implements the effective-TTL rule: the minimum of the zone
ceiling and the record TTL when both are nonzero, the nonzero one when
exactly one is set, and the fixed default 360 when neither is; in
particular record TTL 50 under ceiling 30 yields 30, and two zeros yield
360. -/
theorem Agg.minTtl_spec :
    (∀ (r : Agg.Redis) (ttl : Nat),
      Agg.minTtl r ttl =
        if r.ttl = 0 ∧ ttl = 0 then 360
        else if r.ttl = 0 then ttl
        else if ttl = 0 then r.ttl
        else min r.ttl ttl) ∧
    Agg.minTtl ⟨30, [], [], 0⟩ 50 = 30 ∧
    Agg.minTtl ⟨0, [], [], 0⟩ 0 = 360 := by
  refine ⟨fun r ttl => ?_, by decide, by decide⟩
  unfold Agg.minTtl Agg.defaultTtl
  split_ifs <;> omega

/-- C2: counterexample to the claim as stated: for a query equal to the
zone name, findLocation returns the zone name itself, not the apex label. -/
theorem Agg.findLocation_apex_counterexample :
    Agg.findLocation (str "example.com.") zC2 = str "example.com." ∧
    Agg.findLocation (str "example.com.") zC2 ≠ str "@" := by decide

/-- C2 (amended): for a query equal to the zone name, findLocation returns
the query itself (the zone name); the apex label arises one layer down, in
get, which reads the hash field for a key equal to the zone name. -/
theorem Agg.findLocation_apex_amended :
    ∀ (z : Agg.Zone) (q : Str), q = z.name →
      Agg.findLocation q z = q ∧ Agg.getLabel q z = str "@" := by
  intro z q h
  constructor
  · unfold Agg.findLocation
    rw [if_pos h]
  · unfold Agg.getLabel
    rw [if_pos h]
    rfl

/-- C2 witness. -/
theorem Agg.findLocation_apex_witness :
    Agg.findLocation (str "example.com.") zC2 = str "example.com." ∧
    Agg.getLabel (str "example.com.") zC2 = str "@" :=
  Agg.findLocation_apex_amended zC2 (str "example.com.") rfl

/-- C6: evaluation at the failing input: with key decoration p: and :s and
the backend key p:z:s returned on two scan pages, LoadZones keeps the
suffix (the source strips it with TrimPrefix instead of TrimSuffix) and
emits the key twice (the dedup set is probed with the raw key but stores
the stripped name, so the second occurrence is never found), where the
claim requires the single stripped entry z. -/
theorem Agg.LoadZones_bug_eval :
    Agg.LoadZones (str "p:") (str ":s") c6pages = [str "z:s", str "z:s"] ∧
    str "z:s" ≠ str "z" := by decide

/-- C8: counterexample to the claim as stated: a connection failure in get
yields the same result as an absent record, and a connection failure in
save yields the same nil error as success. -/
theorem Agg.get_save_error_counterexample :
    Agg.get zC8 (fun _ => .noConn) (fun _ => none) (str "w") =
      Agg.get zC8 (fun _ => .absent) (fun _ => none) (str "w") ∧
    Agg.save .noConn = Agg.save .done := by decide

/-- C8 (amended): get maps connection failure, command error, absent field
and JSON decode failure all to a nil record, indistinguishable from
no-match; save surfaces only the HSET command error and reports a nil
(success) error when no connection can be acquired. -/
theorem Agg.get_save_error_amended :
    ∀ (z : Agg.Zone) (dec : Str → Option Agg.Record) (key : Str),
      Agg.get z (fun _ => .noConn) dec key = none ∧
      Agg.get z (fun _ => .cmdError) dec key = none ∧
      Agg.get z (fun _ => .absent) dec key = none ∧
      (∀ s, dec s = none → Agg.get z (fun _ => .value s) dec key = none) ∧
      Agg.save .noConn = none ∧
      Agg.save .cmdError = some () := by
  intro z dec key
  refine ⟨rfl, rfl, rfl, fun s hs => ?_, rfl, rfl⟩
  simp [Agg.get, hs]

/-- C8 witness. -/
theorem Agg.get_save_error_witness :
    Agg.get zC8 (fun _ => .value (str "notjson")) (fun _ => none) (str "w") = none :=
  (Agg.get_save_error_amended zC8 (fun _ => none) (str "w")).2.2.2.1 (str "notjson") rfl

/-- C1: wildcard synthesis in findLocation: if the relative query name is
absent from the zone's locations and the first split's closest encloser
exists (by verbatim membership or suffix match), the result is the source
of synthesis exactly when that wildcard entry is present verbatim;
concretely, with locations a.b only, x.a.b yields no match, and with the
wildcard entry also present it yields *.a.b. -/
theorem Agg.findLocation_wildcard_spec :
    (∀ (z : Agg.Zone) (query ce ss : Str),
      query ≠ z.name →
      Agg.keyExists (trimSuffix query ('.' :: z.name)) z = false →
      Agg.splitQuery (trimSuffix query ('.' :: z.name)) = some (ce, ss) →
      (Agg.keyMatches ce z || Agg.keyExists ce z) = true →
      Agg.findLocation query z = if Agg.keyExists ss z then ss else []) ∧
    Agg.findLocation (str "x.a.b.example.com.") zC1a = [] ∧
    Agg.findLocation (str "x.a.b.example.com.") zC1b = str "*.a.b" := by
  refine ⟨?_, by decide, by decide⟩
  intro z query ce ss h1 h2 h3 h4
  unfold Agg.findLocation
  rw [if_neg h1]
  simp only [h2, h3, Bool.false_eq_true, if_false]
  unfold Agg.wildcardLookup
  simp [h4]

/-- C1 witness. -/
theorem Agg.findLocation_wildcard_witness :
    Agg.findLocation (str "x.a.b.example.com.") zC1b =
      (if Agg.keyExists (str "*.a.b") zC1b then str "*.a.b" else []) :=
  Agg.findLocation_wildcard_spec.1 zC1b (str "x.a.b.example.com.")
    (str "a.b") (str "*.a.b") (by decide) (by decide) (by decide) (by decide)

theorem Agg.split255Loop_join (s : Str) :
    ∀ (fuel p : Nat), s.length ≤ p + 255 * fuel →
      (Agg.split255Loop s fuel p).flatten = s.drop p := by
  intro fuel
  induction fuel with
  | zero => intro p _; simp [Agg.split255Loop]
  | succ fuel ih =>
    intro p h
    by_cases hc : p + 255 ≤ s.length
    · simp only [Agg.split255Loop, if_pos hc, List.flatten_cons]
      rw [ih (p + 255) (by omega)]
      have hd : s.drop (p + 255) = (s.drop p).drop 255 := by
        rw [List.drop_drop, Nat.add_comm]
      rw [hd, List.take_append_drop]
    · simp [Agg.split255Loop, hc]

theorem Agg.split255Loop_bound (s : Str) :
    ∀ (fuel p : Nat), s.length ≤ p + 255 * fuel →
      ∀ c ∈ Agg.split255Loop s fuel p, c.length ≤ 255 := by
  intro fuel
  induction fuel with
  | zero =>
    intro p h c hc
    simp only [Agg.split255Loop, List.mem_singleton] at hc
    subst hc
    simp only [List.length_drop]
    omega
  | succ fuel ih =>
    intro p h c hc
    by_cases hcond : p + 255 ≤ s.length
    · simp only [Agg.split255Loop, if_pos hcond, List.mem_cons] at hc
      rcases hc with h1 | h2
      · subst h1
        exact List.length_take_le 255 (s.drop p)
      · exact ih (p + 255) (by omega) c h2
    · simp only [Agg.split255Loop, if_neg hcond, List.mem_singleton] at hc
      subst hc
      simp only [List.length_drop]
      omega

theorem Agg.split255Loop_step (s : Str) (fuel p : Nat) (h : p + 255 ≤ s.length) :
    Agg.split255Loop s (fuel + 1) p =
      (s.drop p).take 255 :: Agg.split255Loop s fuel (p + 255) := by
  simp [Agg.split255Loop, h]

theorem Agg.split255Loop_last (s : Str) (fuel p : Nat) (h : ¬ (p + 255 ≤ s.length)) :
    Agg.split255Loop s (fuel + 1) p = [s.drop p] := by
  simp [Agg.split255Loop, h]

theorem Agg.split255_len510 : ∀ s : Str, s.length = 510 → (Agg.split255 s).length = 3 := by
  intro s h
  unfold Agg.split255
  rw [if_neg (by omega), h]
  show (Agg.split255Loop s (509 + 1) 0).length = 3
  rw [Agg.split255Loop_step s 509 0 (by omega), List.length_cons]
  show (Agg.split255Loop s (508 + 1) 255).length + 1 = 3
  rw [Agg.split255Loop_step s 508 255 (by omega), List.length_cons]
  show (Agg.split255Loop s (507 + 1) 510).length + 1 + 1 = 3
  rw [Agg.split255Loop_last s 507 510 (by omega)]
  simp

set_option maxRecDepth 100000 in
/-- C4: counterexample to the claim as stated: a 510-byte input yields 3
chunks, the third being empty, not exactly 2 chunks. -/
theorem Agg.split255_two_chunks_counterexample :
    Agg.split255 (List.replicate 510 'a') =
      [List.replicate 255 'a', List.replicate 255 'a', []] ∧
    (Agg.split255 (List.replicate 510 'a')).length ≠ 2 := by decide

/-- C4 (amended): split255 round-trips (the concatenation of the chunks is
the input) and every chunk is at most 255 bytes, but a 510-byte input
yields exactly 3 chunks, the last of which is empty (the loop emits an
empty remainder chunk whenever the length is a positive multiple of 255). -/
theorem Agg.split255_amended :
    (∀ s : Str, (Agg.split255 s).flatten = s) ∧
    (∀ (s c : Str), c ∈ Agg.split255 s → c.length ≤ 255) ∧
    (∀ s : Str, s.length = 510 → (Agg.split255 s).length = 3) := by
  refine ⟨?_, ?_, Agg.split255_len510⟩
  · intro s
    unfold Agg.split255
    by_cases hlen : s.length < 255
    · simp [hlen]
    · rw [if_neg hlen]
      simpa using Agg.split255Loop_join s s.length 0 (by omega)
  · intro s c hc
    unfold Agg.split255 at hc
    by_cases hlen : s.length < 255
    · rw [if_pos hlen] at hc
      simp only [List.mem_singleton] at hc
      subst hc
      omega
    · rw [if_neg hlen] at hc
      exact Agg.split255Loop_bound s s.length 0 (by omega) c hc

/-- C4 witness. -/
theorem Agg.split255_amended_witness :
    (Agg.split255 (str "hello")).flatten = str "hello" ∧
    (str "hello").length ≤ 255 ∧
    (Agg.split255 (List.replicate 510 'a')).length = 3 :=
  ⟨Agg.split255_amended.1 (str "hello"),
   Agg.split255_amended.2.1 (str "hello") (str "hello") (by decide),
   Agg.split255_amended.2.2 (List.replicate 510 'a') (List.length_replicate 510 'a')⟩

theorem Agg.minTtl_pos (r : Agg.Redis) (ttl : Nat) : Agg.minTtl r ttl ≠ 0 := by
  unfold Agg.minTtl Agg.defaultTtl
  split_ifs <;> omega

theorem Agg.A_mem (r : Agg.Redis) (name : Str) (z : Agg.Zone)
    (record : Option Agg.Record) :
    ∀ rr ∈ (Agg.A r name z record).1, rr.hdrTtl ≠ 0 ∧ rr.kind = RKind.a := by
  intro rr h
  match record with
  | none => simp [Agg.A] at h
  | some rec =>
    simp only [Agg.A, List.mem_filterMap] at h
    obtain ⟨a, _, ha⟩ := h
    cases hip : a.ip with
    | none => simp [hip] at ha
    | some ip =>
      simp only [hip, Option.some.injEq] at ha
      subst ha
      exact ⟨Agg.minTtl_pos r a.ttl, rfl⟩

theorem Agg.AAAA_mem (r : Agg.Redis) (name : Str) (z : Agg.Zone)
    (record : Option Agg.Record) :
    ∀ rr ∈ (Agg.AAAA r name z record).1, rr.hdrTtl ≠ 0 ∧ rr.kind = RKind.aaaa := by
  intro rr h
  match record with
  | none => simp [Agg.AAAA] at h
  | some rec =>
    simp only [Agg.AAAA, List.mem_filterMap] at h
    obtain ⟨a, _, ha⟩ := h
    cases hip : a.ip with
    | none => simp [hip] at ha
    | some ip =>
      simp only [hip, Option.some.injEq] at ha
      subst ha
      exact ⟨Agg.minTtl_pos r a.ttl, rfl⟩

theorem Agg.CNAME_mem (r : Agg.Redis) (name : Str) (z : Agg.Zone)
    (record : Option Agg.Record) :
    ∀ rr ∈ (Agg.CNAME r name z record).1, rr.hdrTtl ≠ 0 ∧ rr.kind = RKind.cname := by
  intro rr h
  match record with
  | none => simp [Agg.CNAME] at h
  | some rec =>
    simp only [Agg.CNAME, List.mem_filterMap] at h
    obtain ⟨c, _, hc⟩ := h
    by_cases hz : c.host.length = 0
    · simp [hz] at hc
    · simp only [hz, if_false, Option.some.injEq] at hc
      subst hc
      exact ⟨Agg.minTtl_pos r c.ttl, rfl⟩

theorem Agg.TXT_mem (r : Agg.Redis) (name : Str) (z : Agg.Zone)
    (record : Option Agg.Record) :
    ∀ rr ∈ (Agg.TXT r name z record).1, rr.hdrTtl ≠ 0 ∧ rr.kind = RKind.txt := by
  intro rr h
  match record with
  | none => simp [Agg.TXT] at h
  | some rec =>
    simp only [Agg.TXT, List.mem_filterMap] at h
    obtain ⟨t, _, ht⟩ := h
    by_cases hz : t.text.length = 0
    · simp [hz] at ht
    · simp only [hz, if_false, Option.some.injEq] at ht
      subst ht
      exact ⟨Agg.minTtl_pos r t.ttl, rfl⟩

theorem Agg.hosts_mem (r : Agg.Redis) (fetch : Str → Option Agg.Record)
    (name : Str) (z : Agg.Zone) :
    ∀ rr ∈ Agg.hosts r fetch name z,
      rr.hdrTtl ≠ 0 ∧
        (rr.kind = RKind.a ∨ rr.kind = RKind.aaaa ∨ rr.kind = RKind.cname) := by
  intro rr h
  simp only [Agg.hosts] at h
  by_cases hloc : Agg.findLocation name z = []
  · simp [hloc] at h
  · rw [if_neg hloc] at h
    rcases List.mem_append.mp h with h1 | h1
    rcases List.mem_append.mp h1 with h2 | h2
    · obtain ⟨ht, hk⟩ := Agg.A_mem r name z _ rr h2
      exact ⟨ht, Or.inl hk⟩
    · obtain ⟨ht, hk⟩ := Agg.AAAA_mem r name z _ rr h2
      exact ⟨ht, Or.inr (Or.inl hk)⟩
    · obtain ⟨ht, hk⟩ := Agg.CNAME_mem r name z _ rr h1
      exact ⟨ht, Or.inr (Or.inr hk)⟩

theorem Agg.foldl_pair_mem {α : Type} (P Q : RR → Prop)
    (f : (List RR × List RR) → α → List RR × List RR)
    (hf1 : ∀ acc x rr, rr ∈ (f acc x).1 → rr ∈ acc.1 ∨ P rr)
    (hf2 : ∀ acc x rr, rr ∈ (f acc x).2 → rr ∈ acc.2 ∨ Q rr) :
    ∀ (l : List α) (acc : List RR × List RR),
      (∀ rr ∈ (l.foldl f acc).1, rr ∈ acc.1 ∨ P rr) ∧
      (∀ rr ∈ (l.foldl f acc).2, rr ∈ acc.2 ∨ Q rr) := by
  intro l
  induction l with
  | nil => exact fun acc => ⟨fun rr h => Or.inl h, fun rr h => Or.inl h⟩
  | cons x xs ih =>
    intro acc
    constructor
    · intro rr h
      rcases (ih (f acc x)).1 rr h with h1 | h2
      · exact hf1 acc x rr h1
      · exact Or.inr h2
    · intro rr h
      rcases (ih (f acc x)).2 rr h with h1 | h2
      · exact hf2 acc x rr h1
      · exact Or.inr h2

theorem Agg.nsStep_mem (r : Agg.Redis) (fetch : Str → Option Agg.Record)
    (name : Str) (z : Agg.Zone) :
    (∀ acc (n : Agg.HostRec) rr, rr ∈ (Agg.nsStep r fetch name z acc n).1 →
      rr ∈ acc.1 ∨ (rr.hdrTtl ≠ 0 ∧ rr.kind = RKind.ns)) ∧
    (∀ acc (n : Agg.HostRec) rr, rr ∈ (Agg.nsStep r fetch name z acc n).2 →
      rr ∈ acc.2 ∨ (rr.hdrTtl ≠ 0 ∧
        (rr.kind = RKind.a ∨ rr.kind = RKind.aaaa ∨ rr.kind = RKind.cname))) := by
  constructor
  · intro acc n rr h
    unfold Agg.nsStep at h
    by_cases hz : n.host.length = 0
    · rw [if_pos hz] at h
      exact Or.inl h
    · rw [if_neg hz] at h
      rcases List.mem_append.mp h with h1 | h1
      · exact Or.inl h1
      · simp only [List.mem_singleton] at h1
        subst h1
        exact Or.inr ⟨Agg.minTtl_pos r n.ttl, rfl⟩
  · intro acc n rr h
    unfold Agg.nsStep at h
    by_cases hz : n.host.length = 0
    · rw [if_pos hz] at h
      exact Or.inl h
    · rw [if_neg hz] at h
      rcases List.mem_append.mp h with h1 | h1
      · exact Or.inl h1
      · exact Or.inr (Agg.hosts_mem r fetch n.host z rr h1)

theorem Agg.NS_mem (r : Agg.Redis) (fetch : Str → Option Agg.Record)
    (name : Str) (z : Agg.Zone) (record : Option Agg.Record) :
    (∀ rr ∈ (Agg.NS r fetch name z record).1,
      rr.hdrTtl ≠ 0 ∧ rr.kind = RKind.ns) ∧
    (∀ rr ∈ (Agg.NS r fetch name z record).2,
      rr.hdrTtl ≠ 0 ∧
        (rr.kind = RKind.a ∨ rr.kind = RKind.aaaa ∨ rr.kind = RKind.cname)) := by
  match record with
  | none => exact ⟨by simp [Agg.NS], by simp [Agg.NS]⟩
  | some rec =>
    have key := Agg.foldl_pair_mem _ _ (Agg.nsStep r fetch name z)
      (Agg.nsStep_mem r fetch name z).1 (Agg.nsStep_mem r fetch name z).2
      rec.NS ([], [])
    constructor
    · intro rr h
      rcases key.1 rr h with h1 | h1
      · simp at h1
      · exact h1
    · intro rr h
      rcases key.2 rr h with h1 | h1
      · simp at h1
      · exact h1

theorem Agg.mxStep_mem (r : Agg.Redis) (fetch : Str → Option Agg.Record)
    (name : Str) (z : Agg.Zone) :
    (∀ acc (m : Agg.MXRec) rr, rr ∈ (Agg.mxStep r fetch name z acc m).1 →
      rr ∈ acc.1 ∨ (rr.hdrTtl ≠ 0 ∧ rr.kind = RKind.mx)) ∧
    (∀ acc (m : Agg.MXRec) rr, rr ∈ (Agg.mxStep r fetch name z acc m).2 →
      rr ∈ acc.2 ∨ (rr.hdrTtl ≠ 0 ∧
        (rr.kind = RKind.a ∨ rr.kind = RKind.aaaa ∨ rr.kind = RKind.cname))) := by
  constructor
  · intro acc m rr h
    unfold Agg.mxStep at h
    by_cases hz : m.host.length = 0
    · rw [if_pos hz] at h
      exact Or.inl h
    · rw [if_neg hz] at h
      rcases List.mem_append.mp h with h1 | h1
      · exact Or.inl h1
      · simp only [List.mem_singleton] at h1
        subst h1
        exact Or.inr ⟨Agg.minTtl_pos r m.ttl, rfl⟩
  · intro acc m rr h
    unfold Agg.mxStep at h
    by_cases hz : m.host.length = 0
    · rw [if_pos hz] at h
      exact Or.inl h
    · rw [if_neg hz] at h
      rcases List.mem_append.mp h with h1 | h1
      · exact Or.inl h1
      · exact Or.inr (Agg.hosts_mem r fetch m.host z rr h1)

theorem Agg.MX_mem (r : Agg.Redis) (fetch : Str → Option Agg.Record)
    (name : Str) (z : Agg.Zone) (record : Option Agg.Record) :
    (∀ rr ∈ (Agg.MX r fetch name z record).1,
      rr.hdrTtl ≠ 0 ∧ rr.kind = RKind.mx) ∧
    (∀ rr ∈ (Agg.MX r fetch name z record).2,
      rr.hdrTtl ≠ 0 ∧
        (rr.kind = RKind.a ∨ rr.kind = RKind.aaaa ∨ rr.kind = RKind.cname)) := by
  match record with
  | none => exact ⟨by simp [Agg.MX], by simp [Agg.MX]⟩
  | some rec =>
    have key := Agg.foldl_pair_mem _ _ (Agg.mxStep r fetch name z)
      (Agg.mxStep_mem r fetch name z).1 (Agg.mxStep_mem r fetch name z).2
      rec.MX ([], [])
    constructor
    · intro rr h
      rcases key.1 rr h with h1 | h1
      · simp at h1
      · exact h1
    · intro rr h
      rcases key.2 rr h with h1 | h1
      · simp at h1
      · exact h1

theorem Agg.srvStep_mem (r : Agg.Redis) (fetch : Str → Option Agg.Record)
    (name : Str) (z : Agg.Zone) :
    (∀ acc (s : Agg.SRVRec) rr, rr ∈ (Agg.srvStep r fetch name z acc s).1 →
      rr ∈ acc.1 ∨ (rr.hdrTtl ≠ 0 ∧ rr.kind = RKind.srv)) ∧
    (∀ acc (s : Agg.SRVRec) rr, rr ∈ (Agg.srvStep r fetch name z acc s).2 →
      rr ∈ acc.2 ∨ (rr.hdrTtl ≠ 0 ∧
        (rr.kind = RKind.a ∨ rr.kind = RKind.aaaa ∨ rr.kind = RKind.cname))) := by
  constructor
  · intro acc s rr h
    unfold Agg.srvStep at h
    by_cases hz : s.target.length = 0
    · rw [if_pos hz] at h
      exact Or.inl h
    · rw [if_neg hz] at h
      rcases List.mem_append.mp h with h1 | h1
      · exact Or.inl h1
      · simp only [List.mem_singleton] at h1
        subst h1
        exact Or.inr ⟨Agg.minTtl_pos r s.ttl, rfl⟩
  · intro acc s rr h
    unfold Agg.srvStep at h
    by_cases hz : s.target.length = 0
    · rw [if_pos hz] at h
      exact Or.inl h
    · rw [if_neg hz] at h
      rcases List.mem_append.mp h with h1 | h1
      · exact Or.inl h1
      · exact Or.inr (Agg.hosts_mem r fetch s.target z rr h1)

theorem Agg.SRV_mem (r : Agg.Redis) (fetch : Str → Option Agg.Record)
    (name : Str) (z : Agg.Zone) (record : Option Agg.Record) :
    (∀ rr ∈ (Agg.SRV r fetch name z record).1,
      rr.hdrTtl ≠ 0 ∧ rr.kind = RKind.srv) ∧
    (∀ rr ∈ (Agg.SRV r fetch name z record).2,
      rr.hdrTtl ≠ 0 ∧
        (rr.kind = RKind.a ∨ rr.kind = RKind.aaaa ∨ rr.kind = RKind.cname)) := by
  match record with
  | none => exact ⟨by simp [Agg.SRV], by simp [Agg.SRV]⟩
  | some rec =>
    have key := Agg.foldl_pair_mem _ _ (Agg.srvStep r fetch name z)
      (Agg.srvStep_mem r fetch name z).1 (Agg.srvStep_mem r fetch name z).2
      rec.SRV ([], [])
    constructor
    · intro rr h
      rcases key.1 rr h with h1 | h1
      · simp at h1
      · exact h1
    · intro rr h
      rcases key.2 rr h with h1 | h1
      · simp at h1
      · exact h1

theorem Agg.SOA_mem (r : Agg.Redis) (name : Str) (z : Agg.Zone)
    (record : Option Agg.Record) :
    ∀ rr ∈ (Agg.SOA r name z record).1,
      rr.kind = RKind.soa ∧
        (∀ rec, record = some rec → (rec.SOA.ns ≠ [] ∨ r.ttl ≠ 0) →
          rr.hdrTtl ≠ 0) := by
  intro rr h
  match record with
  | none => simp [Agg.SOA] at h
  | some rec =>
    simp only [Agg.SOA] at h
    by_cases hns : rec.SOA.ns = []
    · rw [if_pos hns] at h
      simp only [List.mem_singleton] at h
      subst h
      refine ⟨rfl, ?_⟩
      intro rec' hrec' hor
      cases hrec'
      rcases hor with h1 | h1
      · exact absurd hns h1
      · exact h1
    · rw [if_neg hns] at h
      simp only [List.mem_singleton] at h
      subst h
      exact ⟨rfl, fun _ _ _ => Agg.minTtl_pos r rec.SOA.ttl⟩

theorem Agg.CAA_mem (r : Agg.Redis) (name : Str) (z : Agg.Zone)
    (record : Option Agg.Record) :
    ∀ rr ∈ (Agg.CAA r name z record).1, rr.hdrTtl = 0 ∧ rr.kind = RKind.caa := by
  intro rr h
  match record with
  | none => simp [Agg.CAA] at h
  | some rec =>
    simp only [Agg.CAA, List.mem_filterMap] at h
    obtain ⟨c, _, hc⟩ := h
    by_cases hz : c.value = [] ∨ c.tag = []
    · simp [hz] at hc
    · simp only [hz, if_false, Option.some.injEq] at hc
      subst hc
      exact ⟨rfl, rfl⟩

/-- C9: counterexample to the claim as stated: the CAA synthesizer (one of
the aggregated-layout synthesizers the claim quantifies over) emits a
record whose header TTL is literally zero: its header is populated without
any TTL field and the TTL policy is never consulted. -/
theorem Agg.zero_ttl_counterexample :
    (Agg.CAA rC9 (str "n") zC9 (some recC9)).1 =
      [RR.caa (str "n.") 0 0 (str "issue") (str "ca.example")] ∧
    (∃ rr ∈ (Agg.CAA rC9 (str "n") zC9 (some recC9)).1, rr.hdrTtl = 0) := by
  decide

/-- C9 (amended): every record synthesized by A, AAAA, CNAME, TXT, NS, MX
and SRV (answers and glue extras alike) carries a nonzero minTtl-resolved
header TTL, and SOA does whenever custom SOA data is stored or the zone
TTL is nonzero; but CAA answers always carry a literal zero header TTL,
and the placeholder SOA branch uses the zone TTL directly, which is zero
when unconfigured. -/
theorem Agg.nonzero_ttl_amended (r : Agg.Redis) (fetch : Str → Option Agg.Record)
    (name : Str) (z : Agg.Zone) (record : Option Agg.Record) :
    (∀ rr ∈ (Agg.A r name z record).1, rr.hdrTtl ≠ 0) ∧
    (∀ rr ∈ (Agg.AAAA r name z record).1, rr.hdrTtl ≠ 0) ∧
    (∀ rr ∈ (Agg.CNAME r name z record).1, rr.hdrTtl ≠ 0) ∧
    (∀ rr ∈ (Agg.TXT r name z record).1, rr.hdrTtl ≠ 0) ∧
    (∀ rr ∈ (Agg.NS r fetch name z record).1 ++ (Agg.NS r fetch name z record).2,
      rr.hdrTtl ≠ 0) ∧
    (∀ rr ∈ (Agg.MX r fetch name z record).1 ++ (Agg.MX r fetch name z record).2,
      rr.hdrTtl ≠ 0) ∧
    (∀ rr ∈ (Agg.SRV r fetch name z record).1 ++ (Agg.SRV r fetch name z record).2,
      rr.hdrTtl ≠ 0) ∧
    (∀ rec, record = some rec → (rec.SOA.ns ≠ [] ∨ r.ttl ≠ 0) →
      ∀ rr ∈ (Agg.SOA r name z record).1, rr.hdrTtl ≠ 0) ∧
    (∀ rr ∈ (Agg.CAA r name z record).1, rr.hdrTtl = 0) := by
  refine ⟨fun rr h => (Agg.A_mem r name z record rr h).1,
    fun rr h => (Agg.AAAA_mem r name z record rr h).1,
    fun rr h => (Agg.CNAME_mem r name z record rr h).1,
    fun rr h => (Agg.TXT_mem r name z record rr h).1,
    fun rr h => ?_, fun rr h => ?_, fun rr h => ?_,
    fun rec hrec hor rr h => (Agg.SOA_mem r name z record rr h).2 rec hrec hor,
    fun rr h => (Agg.CAA_mem r name z record rr h).1⟩
  · rcases List.mem_append.mp h with h1 | h1
    · exact ((Agg.NS_mem r fetch name z record).1 rr h1).1
    · exact ((Agg.NS_mem r fetch name z record).2 rr h1).1
  · rcases List.mem_append.mp h with h1 | h1
    · exact ((Agg.MX_mem r fetch name z record).1 rr h1).1
    · exact ((Agg.MX_mem r fetch name z record).2 rr h1).1
  · rcases List.mem_append.mp h with h1 | h1
    · exact ((Agg.SRV_mem r fetch name z record).1 rr h1).1
    · exact ((Agg.SRV_mem r fetch name z record).2 rr h1).1

/-- C9 witness. -/
theorem Agg.nonzero_ttl_witness :
    (RR.a (str "n.") 5 (str "1.2.3.4")).hdrTtl ≠ 0 ∧
    (RR.soa (str "ex.") 7 (str "ns1.ex.") (str "hm.ex.") 0 1 2 3 4).hdrTtl ≠ 0 ∧
    (RR.caa (str "n.") 0 0 (str "issue") (str "ca.example")).hdrTtl = 0 :=
  ⟨(Agg.nonzero_ttl_amended rC9 (fun _ => none) (str "n") zC9 (some recC9w)).1
      (RR.a (str "n.") 5 (str "1.2.3.4")) (by decide),
   (Agg.nonzero_ttl_amended rC9 (fun _ => none) (str "n") zC9 (some recC9w)).2.2.2.2.2.2.2.1
      recC9w rfl (Or.inl (by decide))
      (RR.soa (str "ex.") 7 (str "ns1.ex.") (str "hm.ex.") 0 1 2 3 4) (by decide),
   (Agg.nonzero_ttl_amended rC9 (fun _ => none) (str "n") zC9 (some recC9w)).2.2.2.2.2.2.2.2
      (RR.caa (str "n.") 0 0 (str "issue") (str "ca.example")) (by decide)⟩

theorem Agg.A_extras (r : Agg.Redis) (name : Str) (z : Agg.Zone)
    (record : Option Agg.Record) : (Agg.A r name z record).2 = [] := by
  cases record <;> rfl

theorem Agg.AAAA_extras (r : Agg.Redis) (name : Str) (z : Agg.Zone)
    (record : Option Agg.Record) : (Agg.AAAA r name z record).2 = [] := by
  cases record <;> rfl

theorem Agg.CNAME_extras (r : Agg.Redis) (name : Str) (z : Agg.Zone)
    (record : Option Agg.Record) : (Agg.CNAME r name z record).2 = [] := by
  cases record <;> rfl

theorem Agg.TXT_extras (r : Agg.Redis) (name : Str) (z : Agg.Zone)
    (record : Option Agg.Record) : (Agg.TXT r name z record).2 = [] := by
  cases record <;> rfl

theorem Agg.axfrStep_inv (r : Agg.Redis) (fetch : Str → Option Agg.Record)
    (z : Agg.Zone) (acc : List RR × List RR × List RR) (key : Str)
    (h1 : ∀ rr ∈ acc.1, rr.kind = RKind.soa)
    (h2 : ∀ rr ∈ acc.2.1, rr.kind = RKind.a ∨ rr.kind = RKind.aaaa ∨
      rr.kind = RKind.cname ∨ rr.kind = RKind.mx ∨ rr.kind = RKind.srv ∨
      rr.kind = RKind.txt)
    (h3 : ∀ rr ∈ acc.2.2, rr.kind = RKind.a ∨ rr.kind = RKind.aaaa ∨
      rr.kind = RKind.cname) :
    (∀ rr ∈ (Agg.axfrStep r fetch z acc key).1, rr.kind = RKind.soa) ∧
    (∀ rr ∈ (Agg.axfrStep r fetch z acc key).2.1, rr.kind = RKind.a ∨
      rr.kind = RKind.aaaa ∨ rr.kind = RKind.cname ∨ rr.kind = RKind.mx ∨
      rr.kind = RKind.srv ∨ rr.kind = RKind.txt) ∧
    (∀ rr ∈ (Agg.axfrStep r fetch z acc key).2.2, rr.kind = RKind.a ∨
      rr.kind = RKind.aaaa ∨ rr.kind = RKind.cname) := by
  unfold Agg.axfrStep
  by_cases hk : key = ['@']
  · rw [if_pos hk]
    exact ⟨fun rr h => (Agg.SOA_mem r z.name z _ rr h).1, h2, h3⟩
  · rw [if_neg hk]
    refine ⟨h1, ?_, ?_⟩
    · intro rr h
      simp only [List.append_assoc, List.mem_append] at h
      rcases h with h | h | h | h | h | h | h
      · exact h2 rr h
      · exact Or.inl (Agg.A_mem r _ z _ rr h).2
      · exact Or.inr (Or.inl (Agg.AAAA_mem r _ z _ rr h).2)
      · exact Or.inr (Or.inr (Or.inl (Agg.CNAME_mem r _ z _ rr h).2))
      · exact Or.inr (Or.inr (Or.inr (Or.inl ((Agg.MX_mem r fetch _ z _).1 rr h).2)))
      · exact Or.inr (Or.inr (Or.inr (Or.inr (Or.inl ((Agg.SRV_mem r fetch _ z _).1 rr h).2))))
      · exact Or.inr (Or.inr (Or.inr (Or.inr (Or.inr (Agg.TXT_mem r _ z _ rr h).2))))
    · intro rr h
      simp only [Agg.A_extras, Agg.AAAA_extras, Agg.CNAME_extras, Agg.TXT_extras,
        List.append_nil, List.append_assoc, List.mem_append] at h
      rcases h with h | h | h
      · exact h3 rr h
      · exact ((Agg.MX_mem r fetch _ z _).2 rr h).2
      · exact ((Agg.SRV_mem r fetch _ z _).2 rr h).2

theorem Agg.axfrFold_go (r : Agg.Redis) (fetch : Str → Option Agg.Record)
    (z : Agg.Zone) :
    ∀ (l : List Str) (acc : List RR × List RR × List RR),
      (∀ rr ∈ acc.1, rr.kind = RKind.soa) →
      (∀ rr ∈ acc.2.1, rr.kind = RKind.a ∨ rr.kind = RKind.aaaa ∨
        rr.kind = RKind.cname ∨ rr.kind = RKind.mx ∨ rr.kind = RKind.srv ∨
        rr.kind = RKind.txt) →
      (∀ rr ∈ acc.2.2, rr.kind = RKind.a ∨ rr.kind = RKind.aaaa ∨
        rr.kind = RKind.cname) →
      (∀ rr ∈ (l.foldl (Agg.axfrStep r fetch z) acc).1, rr.kind = RKind.soa) ∧
      (∀ rr ∈ (l.foldl (Agg.axfrStep r fetch z) acc).2.1, rr.kind = RKind.a ∨
        rr.kind = RKind.aaaa ∨ rr.kind = RKind.cname ∨ rr.kind = RKind.mx ∨
        rr.kind = RKind.srv ∨ rr.kind = RKind.txt) ∧
      (∀ rr ∈ (l.foldl (Agg.axfrStep r fetch z) acc).2.2, rr.kind = RKind.a ∨
        rr.kind = RKind.aaaa ∨ rr.kind = RKind.cname) := by
  intro l
  induction l with
  | nil => intro acc h1 h2 h3; exact ⟨h1, h2, h3⟩
  | cons x xs ih =>
    intro acc h1 h2 h3
    have step := Agg.axfrStep_inv r fetch z acc x h1 h2 h3
    exact ih (Agg.axfrStep r fetch z acc x) step.1 step.2.1 step.2.2

theorem Agg.axfrFold_inv (r : Agg.Redis) (fetch : Str → Option Agg.Record)
    (z : Agg.Zone) :
    (∀ rr ∈ (Agg.axfrFold r fetch z).1, rr.kind = RKind.soa) ∧
    (∀ rr ∈ (Agg.axfrFold r fetch z).2.1, rr.kind = RKind.a ∨
      rr.kind = RKind.aaaa ∨ rr.kind = RKind.cname ∨ rr.kind = RKind.mx ∨
      rr.kind = RKind.srv ∨ rr.kind = RKind.txt) ∧
    (∀ rr ∈ (Agg.axfrFold r fetch z).2.2, rr.kind = RKind.a ∨
      rr.kind = RKind.aaaa ∨ rr.kind = RKind.cname) := by
  unfold Agg.axfrFold
  exact Agg.axfrFold_go r fetch z z.locations ([], [], [])
    (by simp) (by simp) (by simp)

/-- C7: counterexample to the claim as stated: a location whose record
holds NS and CAA entries contributes nothing to the transfer output; the
AXFR loop only synthesizes A, AAAA, CNAME, MX, SRV and TXT for non-apex
locations, so the dump is just the SOA framing and contains no NS or CAA
record despite the stored data. -/
theorem Agg.AXFR_alltypes_counterexample :
    recC7w.NS = [⟨str "ns1.z.", 100⟩] ∧
    recC7w.CAA = [⟨0, str "issue", str "ca"⟩] ∧
    Agg.AXFR rC7 fetchC7 zC7 =
      [RR.soa (str "z.") 77 (str "ns1.z.") (str "hm.z.") 1000 1 2 3 4,
       RR.soa (str "z.") 77 (str "ns1.z.") (str "hm.z.") 1000 1 2 3 4] ∧
    (¬ ∃ rr ∈ Agg.AXFR rC7 fetchC7 zC7, rr.kind = RKind.ns) ∧
    (¬ ∃ rr ∈ Agg.AXFR rC7 fetchC7 zC7, rr.kind = RKind.caa) := by decide

/-- C7 (amended): AXFR iterates every known location and assembles the
output as SOA record(s) first, then all other answers, then all glue
extras, then the SOA record(s) again; but it synthesizes only the types
A, AAAA, CNAME, MX, SRV and TXT for non-apex locations (never NS or CAA),
with glue extras limited to A, AAAA and CNAME. -/
theorem Agg.AXFR_amended (r : Agg.Redis) (fetch : Str → Option Agg.Record)
    (z : Agg.Zone) :
    Agg.AXFR r fetch z =
      (Agg.axfrFold r fetch z).1 ++ (Agg.axfrFold r fetch z).2.1 ++
        (Agg.axfrFold r fetch z).2.2 ++ (Agg.axfrFold r fetch z).1 ∧
    (∀ rr ∈ (Agg.axfrFold r fetch z).1, rr.kind = RKind.soa) ∧
    (∀ rr ∈ Agg.AXFR r fetch z, rr.kind ≠ RKind.ns ∧ rr.kind ≠ RKind.caa) := by
  refine ⟨rfl, (Agg.axfrFold_inv r fetch z).1, ?_⟩
  intro rr h
  have hinv := Agg.axfrFold_inv r fetch z
  have hmem : rr ∈ (Agg.axfrFold r fetch z).1 ∨
      rr ∈ (Agg.axfrFold r fetch z).2.1 ∨ rr ∈ (Agg.axfrFold r fetch z).2.2 := by
    have h' : rr ∈ (Agg.axfrFold r fetch z).1 ++ (Agg.axfrFold r fetch z).2.1 ++
        (Agg.axfrFold r fetch z).2.2 ++ (Agg.axfrFold r fetch z).1 := h
    simp only [List.append_assoc, List.mem_append] at h'
    tauto
  rcases hmem with hm | hm | hm
  · rw [hinv.1 rr hm]
    decide
  · rcases hinv.2.1 rr hm with hk | hk | hk | hk | hk | hk <;> rw [hk] <;> decide
  · rcases hinv.2.2 rr hm with hk | hk | hk <;> rw [hk] <;> decide

/-- C7 witness. -/
theorem Agg.AXFR_amended_witness :
    (RR.soa (str "z.") 77 (str "ns1.z.") (str "hm.z.") 1000 1 2 3 4).kind ≠ RKind.ns ∧
    (RR.soa (str "z.") 77 (str "ns1.z.") (str "hm.z.") 1000 1 2 3 4).kind ≠ RKind.caa :=
  (Agg.AXFR_amended rC7 fetchC7 zC7).2.2
    (RR.soa (str "z.") 77 (str "ns1.z.") (str "hm.z.") 1000 1 2 3 4) (by decide)

/-- The A branch of the row parser never consults the glue argument, which
justifies the stub instantiation inside getAdditionalRecords. -/
theorem Rows.glue_irrelevant_for_A (g g' : Str → Rows.Outcome (List RR))
    (n d : Str) :
    Rows.parseRecordValuesFromString g (str "A") n d =
      Rows.parseRecordValuesFromString g' (str "A") n d := rfl

/-- C3: the decaying-TTL strategy of LoadZoneRecords: when the backend
reports the no-such-key sentinel (-2) for the sibling TTL key, the parsed
record TTLs are left unchanged and a TTL key is written whose value and
backend expiry both equal the first answer record's TTL; when the sibling
TTL key exists with remaining lifetime t at least 0, every answer record's
TTL is overwritten with t and no TTL key is written. -/
theorem Rows.LoadZoneRecords_decay_spec (r : Rows.Redis) (rows : Str → Str)
    (ttls : Str → Int) (recordType recordName : Str)
    (answers extras : List RR) (a0 : RR) (rest : List RR)
    (hparse : Rows.parseRecordValuesFromString
        (Rows.getAdditionalRecords r rows ttls) recordType recordName
        (rows (r.Key (recordType ++ '/' :: recordName))) = .ok (answers, extras))
    (hne : rows (r.Key (recordType ++ '/' :: recordName)) ≠ [])
    (ha : answers = a0 :: rest) :
    (ttls (r.Key ((recordType ++ '/' :: recordName) ++ str ":ttl")) = -2 →
      Rows.LoadZoneRecords r rows ttls recordType recordName =
        .ok (answers, extras, some (a0.hdrTtl, a0.hdrTtl))) ∧
    (∀ t : Int, 0 ≤ t →
      ttls (r.Key ((recordType ++ '/' :: recordName) ++ str ":ttl")) = t →
      Rows.LoadZoneRecords r rows ttls recordType recordName =
        .ok (answers.map (RR.setHdrTtl (uint32ofInt t)), extras, none)) := by
  subst ha
  constructor
  · intro httl
    simp only [Rows.LoadZoneRecords, Rows.loadCore, hparse, Rows.Outcome.bind, httl]
    rw [if_neg hne]
    simp
  · intro t ht httl
    simp only [Rows.LoadZoneRecords, Rows.loadCore, hparse, Rows.Outcome.bind, httl]
    rw [if_neg hne, if_neg (by omega : ¬ (t = -2))]

/-- C3 witness. -/
theorem Rows.LoadZoneRecords_decay_witness :
    Rows.LoadZoneRecords ⟨[]⟩ rowsC3 (fun _ => -2) (str "A") (str "w") =
      .ok ([RR.a (str "w") 300 (str "1.2.3.4")], [], some (300, 300)) ∧
    Rows.LoadZoneRecords ⟨[]⟩ rowsC3 (fun _ => 5) (str "A") (str "w") =
      .ok ([RR.a (str "w") 5 (str "1.2.3.4")], [], none) :=
  ⟨(Rows.LoadZoneRecords_decay_spec ⟨[]⟩ rowsC3 (fun _ => -2) (str "A") (str "w")
      [RR.a (str "w") 300 (str "1.2.3.4")] [] (RR.a (str "w") 300 (str "1.2.3.4")) []
      (by decide) (by decide) rfl).1 (by decide),
   (Rows.LoadZoneRecords_decay_spec ⟨[]⟩ rowsC3 (fun _ => 5) (str "A") (str "w")
      [RR.a (str "w") 300 (str "1.2.3.4")] [] (RR.a (str "w") 300 (str "1.2.3.4")) []
      (by decide) (by decide) rfl).2 5 (by decide) (by decide)⟩

/-- C10: counterexample to the claim as stated: a 6-field SOA row whose
serial position is non-numeric is rejected by the Atoi conversion before
the out-of-range indexing is reached, so parsing returns an error rather
than panicking, although the row has at least 4 and fewer than 10 fields
and reaches parseSOA. -/
theorem Rows.parseSOA_range_counterexample :
    (Rows.stringsFields (str "300 IN SOA ns1.example.com. hm notanum")).length = 6 ∧
    Rows.parseRecordValuesFromString (fun _ => .ok []) (str "SOA") (str "x")
      (str "300 IN SOA ns1.example.com. hm notanum") = .err .atoiErr ∧
    Rows.parseRecordValuesFromString (fun _ => .ok []) (str "SOA") (str "x")
      (str "300 IN SOA ns1.example.com. hm notanum") ≠ .panicked := by decide

theorem Rows.parseSOA_panic (glue : Str → Rows.Outcome (List RR))
    (zoneName : Str) (ttl : Nat) :
    ∀ sub : List Str, 1 ≤ sub.length → sub.length < 7 →
      ((sub.drop 2).all fun f => (Rows.atoi f).isSome) = true →
      Rows.parseSOA glue sub zoneName ttl = .panicked := by
  intro sub h1 h7 hnum
  rcases sub with _ | ⟨a, _ | ⟨b, _ | ⟨c, _ | ⟨d, _ | ⟨e, _ | ⟨f, rest⟩⟩⟩⟩⟩⟩
  · simp at h1
  · rfl
  · rfl
  · have hc : (Rows.atoi c).isSome := by simpa using hnum
    obtain ⟨x, hx⟩ := Option.isSome_iff_exists.mp hc
    simp [Rows.parseSOA, Rows.atoiAt, hx, Rows.Outcome.bind]
  · have hcd : (Rows.atoi c).isSome ∧ (Rows.atoi d).isSome := by simpa using hnum
    obtain ⟨x, hx⟩ := Option.isSome_iff_exists.mp hcd.1
    obtain ⟨y, hy⟩ := Option.isSome_iff_exists.mp hcd.2
    simp [Rows.parseSOA, Rows.atoiAt, hx, hy, Rows.Outcome.bind]
  · have hcde : (Rows.atoi c).isSome ∧ (Rows.atoi d).isSome ∧
        (Rows.atoi e).isSome := by simpa using hnum
    obtain ⟨x, hx⟩ := Option.isSome_iff_exists.mp hcde.1
    obtain ⟨y, hy⟩ := Option.isSome_iff_exists.mp hcde.2.1
    obtain ⟨w, hw⟩ := Option.isSome_iff_exists.mp hcde.2.2
    simp [Rows.parseSOA, Rows.atoiAt, hx, hy, hw, Rows.Outcome.bind]
  · cases rest with
    | cons g t => simp at h7; omega
    | nil =>
      have hall : (Rows.atoi c).isSome ∧ (Rows.atoi d).isSome ∧
          (Rows.atoi e).isSome ∧ (Rows.atoi f).isSome := by simpa using hnum
      obtain ⟨x, hx⟩ := Option.isSome_iff_exists.mp hall.1
      obtain ⟨y, hy⟩ := Option.isSome_iff_exists.mp hall.2.1
      obtain ⟨w, hw⟩ := Option.isSome_iff_exists.mp hall.2.2.1
      obtain ⟨v, hv⟩ := Option.isSome_iff_exists.mp hall.2.2.2
      simp [Rows.parseSOA, Rows.atoiAt, hx, hy, hw, hv, Rows.Outcome.bind]

/-- C10 (amended): for every stored SOA row whose whitespace-split field
list has at least 4 but fewer than 10 fields and reaches parseSOA (type
tag SOA, numeric TTL literal), the only arity check is the guard rejecting
fewer than 4 total fields: whenever every present numeric positional field
(field index 5 onward) parses as an integer, the positional indexing runs
past the end of the slice and panics with index-out-of-range instead of
returning a malformed-row error (rows with 4 or 5 total fields panic
unconditionally; with 6 to 9 fields a non-numeric field is reported as an
Atoi conversion error before the panic is reached). -/
theorem Rows.parseSOA_oob_amended (glue : Str → Rows.Outcome (List RR))
    (recordName rData : Str)
    (h4 : 4 ≤ (Rows.stringsFields rData).length)
    (h10 : (Rows.stringsFields rData).length < 10)
    (hty : (Rows.stringsFields rData).getD 2 [] = str "SOA")
    (httl : (Rows.atoi ((Rows.stringsFields rData).getD 0 [])).isSome = true)
    (hnum : (((Rows.stringsFields rData).drop 5).all
        fun f => (Rows.atoi f).isSome) = true) :
    Rows.parseRecordValuesFromString glue (str "SOA") recordName rData =
      .panicked := by
  obtain ⟨t, ht⟩ := Option.isSome_iff_exists.mp httl
  simp only [Rows.parseRecordValuesFromString, ht]
  rw [if_neg (by omega), if_neg (by simpa using hty)]
  show Rows.parseSOA glue ((Rows.stringsFields rData).drop 3) recordName
    (uint32ofInt t) = .panicked
  apply Rows.parseSOA_panic
  · simp only [List.length_drop]
    omega
  · simp only [List.length_drop]
    omega
  · rw [List.drop_drop]
    norm_num
    simpa using hnum

/-- C10 witness. -/
theorem Rows.parseSOA_oob_witness :
    Rows.parseRecordValuesFromString (fun _ => .ok []) (str "SOA") (str "x")
      (str "300 IN SOA ns1.example.") = .panicked :=
  Rows.parseSOA_oob_amended (fun _ => .ok []) (str "x")
    (str "300 IN SOA ns1.example.")
    (by decide) (by decide) (by decide) (by decide) (by decide)
